import Mathlib

/-!
Verification of the ShadowGate deception gateway core against its
natural-language specification.  Each Go function relevant to the checked
claims is shallowly embedded as an executable Lean definition; theorems
below settle the claims.

Sources embedded here:
* `internal/decision/decision.go` — `Engine.Evaluate` and the `Action` /
  `Decision` data model.
* `internal/gateway/handler.go` — `Handler.extractClientIP` and
  `buildDecoyStrategy`.
* circuit breaker (`CircuitBreaker` type with `Allow`, `RecordSuccess`,
  `RecordFailure`) from the `proxy` package.
* `RateLimitRule.Evaluate` from the `rules` package.
* `internal/proxy/health.go` — `Pool.NextHealthy`, `Pool.ServeHTTPWithRetry`
  and `retryResponseRecorder`.
* admin `requireAuth` / route registration from the `admin` package.
* `DecoyConfig.Validate` from the `config` package.
-/

namespace ShadowGate

/-! ## Decision engine (`internal/decision/decision.go`) -/

/-- Go `decision.Action` (iota enum). -/
inductive Action where
  | allowForward
  | denyDecoy
  | drop
  | tarpit
  | redirect
deriving DecidableEq, Repr

/-- Go `rules.Result`: the outcome of evaluating a rule or a rule group. -/
structure RuleResult where
  Matched : Bool
  Reason : String
  Labels : List String
deriving DecidableEq, Repr

/-- Go `decision.Decision`. -/
structure Decision where
  Action : Action
  Reason : String
  Labels : List String
  RedirectURL : String := ""
deriving DecidableEq, Repr

/--
The allow-gate half of Go `Engine.Evaluate` (decision.go lines 92–115).
The engine holds optional allow/deny rule groups and an evaluator; the
branching mirrors the Go body exactly.  The rule-group evaluator
(`rules.Evaluator.EvaluateGroup`, whose source lives in the separate
`rules` package) is passed in as the function `evalGroup`, and the request
context (built from the HTTP request, client IP and TLS state) as `ctx`;
`Evaluate` only inspects the `Matched`, `Reason` and `Labels` fields of the
evaluator's result.
-/
def Engine.evaluateAllow {G C : Type} (evalGroup : G → C → RuleResult)
    (allowRules : Option G) (ctx : C) : Decision :=
  match allowRules with
  | some ag =>
    let result := evalGroup ag ctx
    if result.Matched then
      { Action := .allowForward, Reason := result.Reason, Labels := result.Labels }
    else
      -- Allow rules exist but didn't match - deny by default
      { Action := .denyDecoy, Reason := "no allow rules matched",
        Labels := ["default-deny"] }
  | none =>
    -- No rules configured - allow by default (permissive mode)
    { Action := .allowForward, Reason := "no rules configured",
      Labels := ["no-rules"] }

/--
The deny-precedence half of Go `Engine.Evaluate` (decision.go lines 80–90);
when the deny group is absent or does not match, the allow-gate half above
(lines 92–115) decides.
-/
def Engine.Evaluate {G C : Type} (evalGroup : G → C → RuleResult)
    (allowRules denyRules : Option G) (ctx : C) : Decision :=
  -- Check deny rules first (deny takes precedence)
  match denyRules with
  | some dg =>
    let result := evalGroup dg ctx
    if result.Matched then
      { Action := .denyDecoy, Reason := result.Reason, Labels := result.Labels }
    else
      Engine.evaluateAllow evalGroup allowRules ctx
  | none => Engine.evaluateAllow evalGroup allowRules ctx

/--
C1: For every request context, rule-group evaluator and pair of optional
allow/deny groups, `Engine.Evaluate` returns exactly one of:
(a) deny group exists and matches → `DenyDecoy` with the deny group's reason
and labels; (b) otherwise allow group exists and matches → `AllowForward`
with the allow group's reason and labels; (c) otherwise allow group exists
but does not match → `DenyDecoy`, reason `"no allow rules matched"`, labels
`["default-deny"]`; (d) otherwise → `AllowForward`, reason
`"no rules configured"`, labels `["no-rules"]`.  In particular the action is
always `AllowForward` or `DenyDecoy` — never `Drop`, `Tarpit` or `Redirect`.
-/
theorem evaluate_decision_cases {G C : Type} (evalGroup : G → C → RuleResult)
    (allowRules denyRules : Option G) (ctx : C) :
    (let d := Engine.Evaluate evalGroup allowRules denyRules ctx
     ((∃ dg, denyRules = some dg ∧ (evalGroup dg ctx).Matched = true ∧
        d = { Action := .denyDecoy, Reason := (evalGroup dg ctx).Reason,
              Labels := (evalGroup dg ctx).Labels }) ∨
      ((∀ dg, denyRules = some dg → (evalGroup dg ctx).Matched = false) ∧
        (∃ ag, allowRules = some ag ∧ (evalGroup ag ctx).Matched = true ∧
          d = { Action := .allowForward, Reason := (evalGroup ag ctx).Reason,
                Labels := (evalGroup ag ctx).Labels })) ∨
      ((∀ dg, denyRules = some dg → (evalGroup dg ctx).Matched = false) ∧
        (∃ ag, allowRules = some ag ∧ (evalGroup ag ctx).Matched = false ∧
          d = { Action := .denyDecoy, Reason := "no allow rules matched",
                Labels := ["default-deny"] })) ∨
      ((∀ dg, denyRules = some dg → (evalGroup dg ctx).Matched = false) ∧
        allowRules = none ∧
        d = { Action := .allowForward, Reason := "no rules configured",
              Labels := ["no-rules"] })) ∧
     (d.Action = .allowForward ∨ d.Action = .denyDecoy)) := by
  unfold Engine.Evaluate Engine.evaluateAllow
  cases hd : denyRules with
  | some dg =>
    cases hm : (evalGroup dg ctx).Matched with
    | true =>
      refine ⟨Or.inl ⟨dg, rfl, hm, ?_⟩, ?_⟩ <;> simp [hm]
    | false =>
      cases ha : allowRules with
      | some ag =>
        cases ham : (evalGroup ag ctx).Matched with
        | true =>
          refine ⟨Or.inr (Or.inl ⟨?_, ag, rfl, ham, ?_⟩), ?_⟩ <;>
            simp_all
        | false =>
          refine ⟨Or.inr (Or.inr (Or.inl ⟨?_, ag, rfl, ham, ?_⟩)), ?_⟩ <;>
            simp_all
      | none =>
        refine ⟨Or.inr (Or.inr (Or.inr ⟨?_, rfl, ?_⟩)), ?_⟩ <;> simp_all
  | none =>
    cases ha : allowRules with
    | some ag =>
      cases ham : (evalGroup ag ctx).Matched with
      | true =>
        refine ⟨Or.inr (Or.inl ⟨?_, ag, rfl, ham, ?_⟩), ?_⟩ <;> simp_all
      | false =>
        refine ⟨Or.inr (Or.inr (Or.inl ⟨?_, ag, rfl, ham, ?_⟩)), ?_⟩ <;>
          simp_all
    | none =>
      refine ⟨Or.inr (Or.inr (Or.inr ⟨?_, rfl, ?_⟩)), ?_⟩ <;> simp_all

/-! ## Circuit breaker (`proxy` package) -/

/--
Go `proxy.CircuitState` (iota enum).  The Go constructor `CircuitOpen` is
rendered `opened` because `open` is a Lean keyword.
-/
inductive CircuitState where
  | closed
  | opened
  | halfOpen
deriving DecidableEq, Repr

/--
Go `proxy.CircuitBreakerConfig`.  Thresholds are Go `int` counts (used only
non-negatively); `Timeout` is a Go `time.Duration`, modelled as an integer
number of nanoseconds.
-/
structure CircuitBreakerConfig where
  FailureThreshold : Nat
  SuccessThreshold : Nat
  Timeout : Int
deriving DecidableEq, Repr

/-- Go `proxy.DefaultCircuitBreakerConfig` (5 failures, 2 successes, 30s). -/
def DefaultCircuitBreakerConfig : CircuitBreakerConfig :=
  { FailureThreshold := 5, SuccessThreshold := 2, Timeout := 30 * 1000000000 }

/--
Go `proxy.CircuitBreaker`.  Wall-clock instants (`lastStateChange`, and the
`now` argument threaded through the methods in place of Go's `time.Now()`)
are integers in nanoseconds; the mutex is dropped since each method is a
single critical section and is modelled as a pure state transformer.
-/
structure CircuitBreaker where
  config : CircuitBreakerConfig
  state : CircuitState
  failures : Nat
  successes : Nat
  lastStateChange : Int
deriving DecidableEq, Repr

/-- Go `NewCircuitBreaker` (`now` stands for `time.Now()`). -/
def NewCircuitBreaker (cfg : CircuitBreakerConfig) (now : Int) : CircuitBreaker :=
  { config := cfg, state := .closed, failures := 0, successes := 0,
    lastStateChange := now }

/--
Go `CircuitBreaker.Allow`: returns whether a request is admitted together
with the breaker's next state.  `time.Since(cb.lastStateChange)` is
`now - lastStateChange`.
-/
def CircuitBreaker.Allow (cb : CircuitBreaker) (now : Int) :
    Bool × CircuitBreaker :=
  match cb.state with
  | .closed => (true, cb)
  | .opened =>
    -- Check if timeout has elapsed
    if now - cb.lastStateChange ≥ cb.config.Timeout then
      (true, { cb with state := .halfOpen, lastStateChange := now,
                       successes := 0 })
    else
      (false, cb)
  | .halfOpen =>
    -- Allow limited requests in half-open state
    (true, cb)

/-- Go `CircuitBreaker.RecordSuccess`. -/
def CircuitBreaker.RecordSuccess (cb : CircuitBreaker) (now : Int) :
    CircuitBreaker :=
  let cb := { cb with failures := 0 }
  match cb.state with
  | .halfOpen =>
    let cb := { cb with successes := cb.successes + 1 }
    if cb.successes ≥ cb.config.SuccessThreshold then
      { cb with state := .closed, lastStateChange := now, successes := 0 }
    else
      cb
  | .closed => cb   -- Already closed, nothing to do
  | .opened => cb   -- Go switch has no Open arm

/-- Go `CircuitBreaker.RecordFailure`. -/
def CircuitBreaker.RecordFailure (cb : CircuitBreaker) (now : Int) :
    CircuitBreaker :=
  let cb := { cb with successes := 0, failures := cb.failures + 1 }
  match cb.state with
  | .closed =>
    if cb.failures ≥ cb.config.FailureThreshold then
      { cb with state := .opened, lastStateChange := now }
    else
      cb
  | .halfOpen =>
    -- Any failure in half-open goes back to open
    { cb with state := .opened, lastStateChange := now, failures := 0 }
  | .opened => cb   -- Go switch has no Open arm

/--
C3: in state `Open`, `Allow` rejects (returning the breaker unchanged, so
any number of such calls are all rejected) while `now - last_state_change`
is below the timeout, and the first `Allow` at or past the timeout returns
`true` and, in the same call, moves the state to `HalfOpen`, sets
`last_state_change` to `now` and resets the consecutive-success counter.
-/
theorem circuit_open_allow_timeout (cb : CircuitBreaker) (now : Int)
    (hopen : cb.state = .opened) :
    (now - cb.lastStateChange < cb.config.Timeout →
      cb.Allow now = (false, cb)) ∧
    (now - cb.lastStateChange ≥ cb.config.Timeout →
      (cb.Allow now).1 = true ∧
      (cb.Allow now).2.state = .halfOpen ∧
      (cb.Allow now).2.lastStateChange = now ∧
      (cb.Allow now).2.successes = 0) := by
  unfold CircuitBreaker.Allow
  rw [hopen]
  constructor
  · intro hlt
    rw [if_neg (by omega)]
  · intro hge
    rw [if_pos hge]
    exact ⟨rfl, rfl, rfl, rfl⟩

/-- Witness for `circuit_open_allow_timeout` at a concrete open breaker. -/
theorem circuit_open_allow_timeout_witness :
    (let cb : CircuitBreaker :=
      { config := { FailureThreshold := 3, SuccessThreshold := 2, Timeout := 100 },
        state := .opened, failures := 3, successes := 1, lastStateChange := 50 }
     cb.state = CircuitState.opened ∧
     ((60 : Int) - cb.lastStateChange < cb.config.Timeout → cb.Allow 60 = (false, cb)) ∧
     ((150 : Int) - cb.lastStateChange ≥ cb.config.Timeout →
       (cb.Allow 150).1 = true ∧
       (cb.Allow 150).2.state = .halfOpen ∧
       (cb.Allow 150).2.lastStateChange = 150 ∧
       (cb.Allow 150).2.successes = 0)) := by
  refine ⟨rfl, ?_, ?_⟩
  · exact (circuit_open_allow_timeout _ 60 rfl).1
  · exact fun h => (circuit_open_allow_timeout _ 150 rfl).2 h

/-- Circuit-breaker event stream: each entry is a `RecordSuccess` or
`RecordFailure` call with the wall-clock instant at which it happens. -/
inductive CBEvent where
  | success (t : Int)
  | failure (t : Int)
deriving DecidableEq, Repr

/-- Apply one recorded event to a breaker. -/
def CBEvent.apply (cb : CircuitBreaker) : CBEvent → CircuitBreaker
  | .success t => cb.RecordSuccess t
  | .failure t => cb.RecordFailure t

/-- Apply a FIFO stream of events to a breaker. -/
def CircuitBreaker.applyEvents (cb : CircuitBreaker) (evs : List CBEvent) :
    CircuitBreaker :=
  evs.foldl CBEvent.apply cb

/-- `true` iff an event is a `RecordFailure`. -/
def CBEvent.isFailure : CBEvent → Bool
  | .failure _ => true
  | .success _ => false

/--
`failuresBounded F c evs` holds when, starting from `c` consecutive
recorded failures, every run of consecutive failures in `evs` stays
strictly below the threshold `F` (a success resets the run).
-/
def failuresBounded (F : Nat) : Nat → List CBEvent → Bool
  | _, [] => true
  | c, .failure _ :: rest => decide (c + 1 < F) && failuresBounded F (c + 1) rest
  | _, .success _ :: rest => failuresBounded F 0 rest

/-- Once open, further recorded failures keep the breaker open. -/
theorem applyEvents_failures_opened (evs : List CBEvent)
    (hall : ∀ e ∈ evs, e.isFailure = true) (cb : CircuitBreaker)
    (h : cb.state = .opened) :
    (cb.applyEvents evs).state = .opened := by
  induction evs generalizing cb with
  | nil => exact h
  | cons e rest ih =>
    cases e with
    | success t => simp [CBEvent.isFailure] at hall
    | failure t =>
      have hrest : ∀ e ∈ rest, e.isFailure = true := fun e he =>
        hall e (List.mem_cons_of_mem _ he)
      have : ((cb.RecordFailure t).state = .opened) := by
        unfold CircuitBreaker.RecordFailure
        rw [h]
      simpa [CircuitBreaker.applyEvents, CBEvent.apply] using
        ih hrest (cb.RecordFailure t) this

/-- From `Closed` with `c < F` prior consecutive failures, a stream of
`F - c` failures drives the breaker to `Open`. -/
theorem applyEvents_failures_open_from_closed (F : Nat)
    (evs : List CBEvent) (hall : ∀ e ∈ evs, e.isFailure = true)
    (cb : CircuitBreaker) (hstate : cb.state = .closed)
    (hcfg : cb.config.FailureThreshold = F)
    (hc : cb.failures < F) (hlen : evs.length = F - cb.failures) :
    (cb.applyEvents evs).state = .opened := by
  induction evs generalizing cb with
  | nil => simp at hlen; omega
  | cons e rest ih =>
    cases e with
    | success t => simp [CBEvent.isFailure] at hall
    | failure t =>
      have hrest : ∀ e ∈ rest, e.isFailure = true := fun e he =>
        hall e (List.mem_cons_of_mem _ he)
      by_cases hth : cb.failures + 1 ≥ F
      · -- this failure opens the breaker; the rest keeps it open
        have hopen : (cb.RecordFailure t).state = .opened := by
          unfold CircuitBreaker.RecordFailure
          rw [hstate]
          simp only
          rw [if_pos (by simpa [hcfg] using hth)]
        simpa [CircuitBreaker.applyEvents, CBEvent.apply] using
          applyEvents_failures_opened rest hrest _ hopen
      · -- still closed with one more failure recorded
        have hclosed : (cb.RecordFailure t).state = .closed ∧
            (cb.RecordFailure t).failures = cb.failures + 1 ∧
            (cb.RecordFailure t).config = cb.config := by
          unfold CircuitBreaker.RecordFailure
          rw [hstate]
          simp only
          rw [if_neg (by simp only [hcfg]; omega)]
          exact ⟨rfl, rfl, rfl⟩
        have hlen2 : rest.length = F - (cb.RecordFailure t).failures := by
          rw [hclosed.2.1]
          simp at hlen
          omega
        simpa [CircuitBreaker.applyEvents, CBEvent.apply] using
          ih hrest (cb.RecordFailure t) hclosed.1
            (by rw [hclosed.2.2]; exact hcfg)
            (by rw [hclosed.2.1]; omega) hlen2

/-- Bounded failure runs keep a closed breaker closed. -/
theorem applyEvents_bounded_closed (F : Nat) (evs : List CBEvent)
    (cb : CircuitBreaker) (hstate : cb.state = .closed)
    (hcfg : cb.config.FailureThreshold = F)
    (hb : failuresBounded F cb.failures evs = true) :
    (cb.applyEvents evs).state = .closed := by
  induction evs generalizing cb with
  | nil => exact hstate
  | cons e rest ih =>
    cases e with
    | failure t =>
      rw [failuresBounded, Bool.and_eq_true, decide_eq_true_eq] at hb
      have hstep : (cb.RecordFailure t).state = .closed ∧
          (cb.RecordFailure t).failures = cb.failures + 1 ∧
          (cb.RecordFailure t).config = cb.config := by
        unfold CircuitBreaker.RecordFailure
        rw [hstate]
        simp only
        rw [if_neg (by simp only [hcfg]; omega)]
        exact ⟨rfl, rfl, rfl⟩
      have := ih (cb.RecordFailure t) hstep.1
        (by rw [hstep.2.2]; exact hcfg)
        (by rw [hstep.2.1]; exact hb.2)
      simpa [CircuitBreaker.applyEvents, CBEvent.apply] using this
    | success t =>
      rw [failuresBounded] at hb
      have hstep : (cb.RecordSuccess t).state = .closed ∧
          (cb.RecordSuccess t).failures = 0 ∧
          (cb.RecordSuccess t).config = cb.config := by
        unfold CircuitBreaker.RecordSuccess
        rw [hstate]
        exact ⟨rfl, rfl, rfl⟩
      have := ih (cb.RecordSuccess t) hstep.1
        (by rw [hstep.2.2]; exact hcfg)
        (by rw [hstep.2.1]; exact hb)
      simpa [CircuitBreaker.applyEvents, CBEvent.apply] using this

/--
C4: for a breaker whose configured failure threshold is `F > 0`, starting
in `Closed` with a zero consecutive-failure count: (i) any stream of
exactly `F` `RecordFailure` events with no intervening success leaves the
breaker `Open`; (ii) any event stream in which every run of consecutive
failures is shorter than `F` (a `RecordSuccess` in `Closed` resets the
count) leaves the breaker `Closed`.
-/
theorem circuit_failure_threshold (F : Nat) (cb : CircuitBreaker)
    (hF : 0 < F) (hstate : cb.state = .closed) (hzero : cb.failures = 0)
    (hcfg : cb.config.FailureThreshold = F) :
    (∀ evs : List CBEvent, (∀ e ∈ evs, e.isFailure = true) →
      evs.length = F → (cb.applyEvents evs).state = .opened) ∧
    (∀ evs : List CBEvent, failuresBounded F 0 evs = true →
      (cb.applyEvents evs).state = .closed) := by
  constructor
  · intro evs hall hlen
    exact applyEvents_failures_open_from_closed F evs hall cb hstate hcfg
      (by omega) (by omega)
  · intro evs hb
    exact applyEvents_bounded_closed F evs cb hstate hcfg (by rw [hzero]; exact hb)

/-- Witness for `circuit_failure_threshold` with threshold 3: three straight
failures open the breaker; failure-failure-success-failure-failure keeps it
closed. -/
theorem circuit_failure_threshold_witness :
    (let cb := NewCircuitBreaker
      { FailureThreshold := 3, SuccessThreshold := 2, Timeout := 100 } 0
     (cb.applyEvents [.failure 1, .failure 2, .failure 3]).state =
        CircuitState.opened ∧
     (cb.applyEvents
        [.failure 1, .failure 2, .success 3, .failure 4, .failure 5]).state =
        CircuitState.closed) := by
  have h := circuit_failure_threshold 3
    (NewCircuitBreaker
      { FailureThreshold := 3, SuccessThreshold := 2, Timeout := 100 } 0)
    (by decide) rfl rfl rfl
  exact ⟨h.1 [.failure 1, .failure 2, .failure 3] (by decide) (by decide),
         h.2 [.failure 1, .failure 2, .success 3, .failure 4, .failure 5]
           (by decide)⟩

/-! ## IP addresses, CIDRs and Go string helpers

An IPv4 address is a `Nat` below `2^32`; `net.IPNet` is an address plus a
prefix length.  Go's `net.ParseIP` is modelled on its IPv4 (dotted-quad)
fragment: IPv6 literals parse to `none`.  The string helpers mirror
`strings.Split`, `strings.TrimSpace` and `strings.HasPrefix` on the ASCII
fragment relevant here, implemented by structural recursion on the
character list so the kernel can evaluate them.
-/

/-- ASCII fragment of Go `unicode.IsSpace` (as used by `strings.TrimSpace`). -/
def goIsSpace (c : Char) : Bool :=
  c = ' ' || c = '\t' || c = '\n' || c = '\r' ||
  c = Char.ofNat 11 || c = Char.ofNat 12

/-- `strings.TrimSpace` on the character list. -/
def trimChars (l : List Char) : List Char :=
  ((l.dropWhile goIsSpace).reverse.dropWhile goIsSpace).reverse

/-- Go `strings.TrimSpace` (ASCII whitespace). -/
def goTrimSpace (s : String) : String :=
  String.mk (trimChars s.data)

/-- `strings.Split` on a single-character separator, over character lists.
`splitChars sep l` is never empty. -/
def splitChars (sep : Char) : List Char → List (List Char)
  | [] => [[]]
  | c :: rest =>
    if c = sep then
      [] :: splitChars sep rest
    else
      match splitChars sep rest with
      | h :: t => (c :: h) :: t
      | [] => [[c]]

/-- First field of Go `strings.Split(s, sep)` for a one-character `sep`
(Go's `parts[0]`: the characters before the first separator). -/
def goSplitFirst (s : String) (sep : Char) : String :=
  String.mk ((splitChars sep s.data).headD [])

/-- Decimal value of a digit character. -/
def digitVal (c : Char) : Nat := c.toNat - 48

/-- One dotted-quad field: 1–3 decimal digits, value ≤ 255, no leading zero
(Go's `net.ParseIP` rejects leading zeros). -/
def parseDecOctet (l : List Char) : Option Nat :=
  if l.isEmpty then none
  else if !(l.all Char.isDigit) then none
  else if l.length > 3 then none
  else if l.length > 1 && l.headD '0' = '0' then none
  else
    let v := l.foldl (fun a c => a * 10 + digitVal c) 0
    if v ≤ 255 then some v else none

/-- IPv4 fragment of Go `net.ParseIP`: dotted quad to a 32-bit `Nat`. -/
def parseIPv4 (s : String) : Option Nat :=
  match (splitChars '.' s.data).map parseDecOctet with
  | [some a, some b, some c, some d] =>
    some (a * 16777216 + b * 65536 + c * 256 + d)
  | _ => none

/-- Go `net.IPNet` restricted to IPv4: a network address and prefix length
(`net.CIDRMask(prefixLen, 32)`). -/
structure IPNet where
  addr : Nat
  prefixLen : Nat
deriving DecidableEq, Repr

/-- The 32-bit mask with `prefixLen` leading ones. -/
def IPNet.mask (n : IPNet) : Nat :=
  4294967296 - 2 ^ (32 - n.prefixLen)

/-- Go `net.IPNet.Contains`: both addresses are masked and compared. -/
def IPNet.contains (n : IPNet) (ip : Nat) : Bool :=
  ip &&& n.mask = n.addr &&& n.mask

/-- Dotted-quad constructor for readability in concrete witnesses. -/
def ipv4 (a b c d : Nat) : Nat := a * 16777216 + b * 65536 + c * 256 + d

/-! ## Client-IP attribution (`internal/gateway/handler.go` 343–393) -/

/--
Go `Handler.extractClientIP`.  `directIP` is the host part that
`net.SplitHostPort(r.RemoteAddr)` yields (or `r.RemoteAddr` itself when
splitting fails, handler.go lines 345–348); `xff` and `xri` are the values
of the `X-Forwarded-For` and `X-Real-IP` headers, `""` when absent (Go
`Header.Get` returns `""` for a missing header).
-/
def Handler.extractClientIP (trustedProxies : List IPNet)
    (directIP xff xri : String) : String :=
  -- If no trusted proxies configured, use legacy behavior (trust XFF)
  if trustedProxies.isEmpty then
    if xff ≠ "" then goTrimSpace (goSplitFirst xff ',')
    else if xri ≠ "" then xri
    else directIP
  else
    -- Check if the direct connection is from a trusted proxy
    match parseIPv4 directIP with
    | none => directIP
    | some ip =>
      let isTrusted := trustedProxies.any (fun n => n.contains ip)
      -- Only trust X-Forwarded-For if request is from a trusted proxy
      if isTrusted then
        if xff ≠ "" then goTrimSpace (goSplitFirst xff ',')
        else if xri ≠ "" then xri
        else directIP
      else directIP

/-- The code's trusted-peer test: the peer host parses as an IP contained in
some trusted network (handler.go lines 366–377). -/
def peerTrusted (trustedProxies : List IPNet) (directIP : String) : Bool :=
  match parseIPv4 directIP with
  | none => false
  | some ip => trustedProxies.any (fun n => n.contains ip)

/--
C2: with a non-empty trusted-proxy list, a request whose transport peer is
not inside any trusted CIDR gets the peer address back — independently of
the `X-Forwarded-For` / `X-Real-IP` headers — while a request from a
trusted peer gets the first comma-separated `X-Forwarded-For` entry
(whitespace-trimmed), else `X-Real-IP`, else the peer address.
-/
theorem extract_client_ip_trusted_proxies (trustedProxies : List IPNet)
    (directIP : String) (hne : trustedProxies ≠ []) :
    (peerTrusted trustedProxies directIP = false →
      (∀ xff xri, Handler.extractClientIP trustedProxies directIP xff xri =
        directIP) ∧
      (∀ xff₁ xri₁ xff₂ xri₂,
        Handler.extractClientIP trustedProxies directIP xff₁ xri₁ =
        Handler.extractClientIP trustedProxies directIP xff₂ xri₂)) ∧
    (peerTrusted trustedProxies directIP = true →
      ∀ xff xri, Handler.extractClientIP trustedProxies directIP xff xri =
        if xff ≠ "" then goTrimSpace (goSplitFirst xff ',')
        else if xri ≠ "" then xri
        else directIP) := by
  have hempty : trustedProxies.isEmpty = false := by
    cases trustedProxies with
    | nil => exact absurd rfl hne
    | cons a l => rfl
  unfold Handler.extractClientIP peerTrusted
  cases hp : parseIPv4 directIP with
  | none =>
    refine ⟨fun _ => ⟨fun xff xri => ?_, fun a b c d => ?_⟩, fun h => ?_⟩
    · simp [hempty]
    · simp [hempty]
    · cases h
  | some ip =>
    cases ht : trustedProxies.any (fun n => n.contains ip) with
    | false =>
      refine ⟨fun _ => ⟨fun xff xri => ?_, fun a b c d => ?_⟩, fun h => ?_⟩
      · simp [hempty, ht]
      · simp [hempty, ht]
      · have h2 : (trustedProxies.any fun n => n.contains ip) = true := h
        rw [ht] at h2
        cases h2
    | true =>
      refine ⟨fun h => ?_, fun _ xff xri => ?_⟩
      · have h2 : (trustedProxies.any fun n => n.contains ip) = false := h
        rw [ht] at h2
        cases h2
      · simp [hempty, ht]

/-- Witness for `extract_client_ip_trusted_proxies`: with trusted network
`10.0.0.0/8`, peer `8.8.8.8` keeps its address whatever the headers say,
and peer `10.1.2.3` yields the first (trimmed) `X-Forwarded-For` entry. -/
theorem extract_client_ip_trusted_proxies_witness :
    (let tps : List IPNet := [{ addr := ipv4 10 0 0 0, prefixLen := 8 }]
     tps ≠ [] ∧
     peerTrusted tps "8.8.8.8" = false ∧
     Handler.extractClientIP tps "8.8.8.8" "1.2.3.4, 9.9.9.9" "5.6.7.8" =
       "8.8.8.8" ∧
     peerTrusted tps "10.1.2.3" = true ∧
     Handler.extractClientIP tps "10.1.2.3" " 1.2.3.4, 9.9.9.9" "5.6.7.8" =
       "1.2.3.4") := by
  refine ⟨by decide, by decide, ?_, by decide, ?_⟩
  · exact ((extract_client_ip_trusted_proxies _ "8.8.8.8" (by decide)).1
      (by decide)).1 "1.2.3.4, 9.9.9.9" "5.6.7.8"
  · have := (extract_client_ip_trusted_proxies
      [{ addr := ipv4 10 0 0 0, prefixLen := 8 }] "10.1.2.3" (by decide)).2
      (by decide) " 1.2.3.4, 9.9.9.9" "5.6.7.8"
    rw [this]
    decide

/--
C9: with an empty trusted-proxy list, a non-empty `X-Forwarded-For` header
wins: the handler returns the first comma-separated element, whitespace
trimmed, with no check that it parses as an IP address — the attributed
client IP is whatever string the client sent.
-/
theorem extract_client_ip_legacy_xff (directIP xff xri : String)
    (hxff : xff ≠ "") :
    Handler.extractClientIP [] directIP xff xri =
      goTrimSpace (goSplitFirst xff ',') := by
  unfold Handler.extractClientIP
  simp [hxff]

/-- Witness for `extract_client_ip_legacy_xff`: a forged header value that
is not an IP address at all flows through verbatim (modulo trimming). -/
theorem extract_client_ip_legacy_xff_witness :
    Handler.extractClientIP [] "1.2.3.4" " evil payload ,203.0.113.7" "" =
      "evil payload" ∧
    parseIPv4 "evil payload" = none := by
  constructor
  · rw [extract_client_ip_legacy_xff "1.2.3.4" _ "" (by decide)]
    decide
  · decide

/-! ## Rate limiting (`rules.RateLimitRule.Evaluate`) -/

/-- Go `rateLimitCounter`; `windowEnd` is an instant in nanoseconds. -/
structure RateLimitCounter where
  count : Nat
  windowEnd : Int
deriving DecidableEq, Repr

/-- Lookup in the per-IP counter map (Go `r.counters[ctx.ClientIP]`). -/
def lookupCounter : List (String × RateLimitCounter) → String →
    Option RateLimitCounter
  | [], _ => none
  | (k, v) :: rest, key => if k = key then some v else lookupCounter rest key

/-- Store a counter under a key (Go map assignment / in-place increment). -/
def setCounter : List (String × RateLimitCounter) → String →
    RateLimitCounter → List (String × RateLimitCounter)
  | [], key, v => [(key, v)]
  | (k, w) :: rest, key, v =>
    if k = key then (key, v) :: rest else (k, w) :: setCounter rest key v

/--
Go `RateLimitRule.Evaluate`: the rule's `maxRequests`/`window` fields and
the counters map are passed explicitly, `now` stands for `time.Now()`, and
the updated map is returned alongside the `rules.Result`.  Expiry is Go's
`now.After(counter.windowEnd)`, i.e. strictly `now > windowEnd`.
-/
def RateLimitRule.Evaluate (maxRequests : Nat) (window : Int)
    (counters : List (String × RateLimitCounter)) (clientIP : String)
    (now : Int) : RuleResult × List (String × RateLimitCounter) :=
  let fresh : RateLimitCounter := { count := 1, windowEnd := now + window }
  let freshResult : RuleResult :=
    { Matched := true,
      Reason := "rate limit: 1/" ++ Nat.repr maxRequests ++ " requests",
      Labels := ["rate-ok"] }
  match lookupCounter counters clientIP with
  | none =>
    -- Start new window
    (freshResult, setCounter counters clientIP fresh)
  | some counter =>
    if now > counter.windowEnd then
      -- Start new window
      (freshResult, setCounter counters clientIP fresh)
    else
      let newCount := counter.count + 1
      let counters2 :=
        setCounter counters clientIP { counter with count := newCount }
      if newCount > maxRequests then
        ({ Matched := false,
           Reason := "rate limit exceeded: " ++ Nat.repr newCount ++ "/" ++
             Nat.repr maxRequests ++ " requests in window",
           Labels := ["rate-exceeded"] }, counters2)
      else
        ({ Matched := true,
           Reason := "rate limit: " ++ Nat.repr newCount ++ "/" ++
             Nat.repr maxRequests ++ " requests",
           Labels := ["rate-ok"] }, counters2)

/-- Writing a counter makes it the one subsequently looked up. -/
theorem lookupCounter_setCounter (l : List (String × RateLimitCounter))
    (k : String) (v : RateLimitCounter) :
    lookupCounter (setCounter l k v) k = some v := by
  induction l with
  | nil => simp [setCounter, lookupCounter]
  | cons p rest ih =>
    obtain ⟨k0, v0⟩ := p
    by_cases h : k0 = k
    · simp [setCounter, lookupCounter, h]
    · simp [setCounter, lookupCounter, h, ih]

/--
C5 counterexample: the claim reads "expired (now ≥ window_end)", but the
code tests `now.After(windowEnd)`, which is strict.  At `now = window_end`
exactly (here both 100), with `max_requests = 1` and an existing counter
`{count 1, window_end 100}`, the claim predicts a fresh window and
`matched = true` with label `rate-ok`; the code instead increments to 2 and
returns `matched = false` with label `rate-exceeded`.
-/
theorem rate_limit_boundary_counterexample :
    (let st : List (String × RateLimitCounter) :=
      [("10.0.0.1", { count := 1, windowEnd := 100 })]
     let r := RateLimitRule.Evaluate 1 60 st "10.0.0.1" 100
     lookupCounter st "10.0.0.1" = some { count := 1, windowEnd := 100 } ∧
     (100 : Int) ≥ 100 ∧
     ¬(r.1.Matched = true ∧ r.1.Labels = ["rate-ok"] ∧
        lookupCounter r.2 "10.0.0.1" = some { count := 1, windowEnd := 160 }) ∧
     r.1.Matched = false ∧ r.1.Labels = ["rate-exceeded"] ∧
     lookupCounter r.2 "10.0.0.1" = some { count := 2, windowEnd := 100 }) := by
  refine ⟨by decide, by decide, ?_, by decide, by decide, by decide⟩
  intro h
  have := h.1
  revert this
  decide

/--
C5 (amended): at each evaluation, if no counter exists for the client IP or
the counter is expired — strictly `now > window_end` — the rule installs
`{count 1, window_end now+W}` and returns `matched = true` with label
`rate-ok`; otherwise it increments the stored count, and returns
`matched = false` with label `rate-exceeded` iff the incremented count
exceeds `max_requests`, else `matched = true` with label `rate-ok`.
-/
theorem rate_limit_window_semantics (N : Nat) (W : Int)
    (counters : List (String × RateLimitCounter)) (ip : String) (now : Int) :
    ((lookupCounter counters ip = none ∨
        ∃ c, lookupCounter counters ip = some c ∧ now > c.windowEnd) →
       (RateLimitRule.Evaluate N W counters ip now).1.Matched = true ∧
       (RateLimitRule.Evaluate N W counters ip now).1.Labels = ["rate-ok"] ∧
       lookupCounter (RateLimitRule.Evaluate N W counters ip now).2 ip =
         some { count := 1, windowEnd := now + W }) ∧
    (∀ c, lookupCounter counters ip = some c → ¬(now > c.windowEnd) →
       lookupCounter (RateLimitRule.Evaluate N W counters ip now).2 ip =
         some { c with count := c.count + 1 } ∧
       ((RateLimitRule.Evaluate N W counters ip now).1.Matched = false ↔
         c.count + 1 > N) ∧
       (RateLimitRule.Evaluate N W counters ip now).1.Labels =
         (if c.count + 1 > N then ["rate-exceeded"] else ["rate-ok"])) := by
  constructor
  · intro h
    have heq : RateLimitRule.Evaluate N W counters ip now =
        ({ Matched := true,
           Reason := "rate limit: 1/" ++ Nat.repr N ++ " requests",
           Labels := ["rate-ok"] },
         setCounter counters ip { count := 1, windowEnd := now + W }) := by
      rcases h with h | ⟨c, hc, hgt⟩
      · unfold RateLimitRule.Evaluate
        rw [h]
      · unfold RateLimitRule.Evaluate
        rw [hc]
        simp only [if_pos hgt]
    rw [heq]
    exact ⟨rfl, rfl, lookupCounter_setCounter _ _ _⟩
  · intro c hc hne
    have heq : RateLimitRule.Evaluate N W counters ip now =
        ((if c.count + 1 > N then
            ({ Matched := false,
               Reason := "rate limit exceeded: " ++ Nat.repr (c.count + 1) ++
                 "/" ++ Nat.repr N ++ " requests in window",
               Labels := ["rate-exceeded"] } : RuleResult)
          else
            { Matched := true,
              Reason := "rate limit: " ++ Nat.repr (c.count + 1) ++ "/" ++
                Nat.repr N ++ " requests",
              Labels := ["rate-ok"] }),
         setCounter counters ip { c with count := c.count + 1 }) := by
      unfold RateLimitRule.Evaluate
      rw [hc]
      simp only [if_neg hne]
      by_cases hcnt : c.count + 1 > N
      · simp only [if_pos hcnt]
      · simp only [if_neg hcnt]
    rw [heq]
    refine ⟨lookupCounter_setCounter _ _ _, ?_, ?_⟩
    · by_cases hcnt : c.count + 1 > N <;> simp [hcnt]
    · by_cases hcnt : c.count + 1 > N <;> simp [hcnt]

/-- Witness for `rate_limit_window_semantics`: a fresh client gets a new
window, and a client inside a live window at the limit is rejected. -/
theorem rate_limit_window_semantics_witness :
    ((RateLimitRule.Evaluate 2 60 [] "a" 10).1.Matched = true ∧
     lookupCounter (RateLimitRule.Evaluate 2 60 [] "a" 10).2 "a" =
       some { count := 1, windowEnd := 70 } ∧
     (RateLimitRule.Evaluate 2 60 [("a", { count := 2, windowEnd := 70 })]
        "a" 20).1.Matched = false ∧
     (RateLimitRule.Evaluate 2 60 [("a", { count := 2, windowEnd := 70 })]
        "a" 20).1.Labels = ["rate-exceeded"]) := by
  have h1 := (rate_limit_window_semantics 2 60 [] "a" 10).1 (Or.inl (by decide))
  have h2 := (rate_limit_window_semantics 2 60
    [("a", { count := 2, windowEnd := 70 })] "a" 20).2
    { count := 2, windowEnd := 70 } (by decide) (by decide)
  exact ⟨h1.1, h1.2.2, h2.2.1.mpr (by decide), by rw [h2.2.2]; decide⟩

/-! ## Backend pool round-robin (`internal/proxy/health.go` 177–197) -/

/-- A pool member as `Pool.NextHealthy` sees it: its name and the `Healthy`
bit that `Backend.IsHealthy` reads. -/
structure PBackend where
  Name : String
  healthy : Bool
deriving DecidableEq, Repr

instance : Inhabited PBackend := ⟨{ Name := "", healthy := true }⟩

/-- Go `proxy.Pool`: the backend slice and the shared round-robin cursor.
The cursor is a `uint64` bumped with `atomic.AddUint64`; it is modelled as
an unbounded `Nat` (the 2^64 wrap is unreachable in any execution). -/
structure Pool where
  backends : List PBackend
  currentIdx : Nat
deriving DecidableEq, Repr

/-- The scan loop of `NextHealthy` (`for i := 0; i < len; i++`), with the
remaining iteration count as fuel: returns the first healthy backend at
index `(start+i) % len`, scanning `fuel` slots from offset `i`. -/
def findFirstHealthy (bs : List PBackend) (start : Nat) : Nat → Nat → Option PBackend
  | _, 0 => none
  | i, fuel + 1 =>
    if (bs.getD ((start + i) % bs.length) default).healthy then
      some (bs.getD ((start + i) % bs.length) default)
    else
      findFirstHealthy bs start (i + 1) fuel

/-- A list with an element is not `isEmpty`. -/
theorem isEmpty_false_of_ne_nil {α : Type} (l : List α) (h : l ≠ []) :
    l.isEmpty = false := by
  cases l with
  | nil => exact absurd rfl h
  | cons a t => rfl

/-- `getD` at an in-range index is a member of the list. -/
theorem getD_mem_of_lt (l : List PBackend) (i : Nat) (h : i < l.length) :
    l.getD i default ∈ l := by
  induction l generalizing i with
  | nil => simp at h
  | cons a t ih =>
    cases i with
    | zero =>
      rw [List.getD_cons_zero]
      exact List.mem_cons_self a t
    | succ n =>
      rw [List.getD_cons_succ]
      exact List.mem_cons_of_mem _ (ih n (Nat.lt_of_succ_lt_succ h))

/--
Go `Pool.NextHealthy`: advances the shared cursor once (`start` is the
pre-increment value: `int(atomic.AddUint64(&p.currentIdx, 1)) - 1`), scans
at most `len` backends for a healthy one, and otherwise falls back to the
backend at the cursor position; `none` only for an empty pool.
-/
def Pool.NextHealthy (p : Pool) : Option PBackend × Pool :=
  if p.backends.isEmpty then (none, p)
  else
    match findFirstHealthy p.backends p.currentIdx 0 p.backends.length with
    | some b => (some b, { p with currentIdx := p.currentIdx + 1 })
    | none =>
      -- If no healthy backends, return any backend (fallback)
      (some (p.backends.getD (p.currentIdx % p.backends.length) default),
       { p with currentIdx := p.currentIdx + 1 })

/-- Pool state after `n` `NextHealthy` calls. -/
def Pool.nthState (p : Pool) : Nat → Pool
  | 0 => p
  | n + 1 => (Pool.nthState p n).NextHealthy.2

/-- Characterisation of the scan loop: `some` means the first healthy slot
in scan order, `none` means every scanned slot is unhealthy. -/
theorem findFirstHealthy_spec (bs : List PBackend) (start : Nat) :
    ∀ fuel i,
      (findFirstHealthy bs start i fuel = none →
        ∀ k, k < fuel →
          (bs.getD ((start + i + k) % bs.length) default).healthy = false) ∧
      (∀ b, findFirstHealthy bs start i fuel = some b →
        ∃ k, k < fuel ∧
          b = bs.getD ((start + i + k) % bs.length) default ∧
          b.healthy = true ∧
          ∀ m, m < k →
            (bs.getD ((start + i + m) % bs.length) default).healthy = false) := by
  intro fuel
  induction fuel with
  | zero =>
    intro i
    exact ⟨fun _ k hk => absurd hk (Nat.not_lt_zero k),
           fun b hb => by simp [findFirstHealthy] at hb⟩
  | succ f ih =>
    intro i
    constructor
    · intro hnone k hk
      rw [findFirstHealthy] at hnone
      by_cases hh : (bs.getD ((start + i) % bs.length) default).healthy
      · rw [if_pos hh] at hnone
        exact Option.noConfusion hnone
      · rw [if_neg hh] at hnone
        rcases Nat.eq_zero_or_pos k with hk0 | hkpos
        · subst hk0
          simpa using Bool.of_not_eq_true hh
        · have := (ih (i + 1)).1 hnone (k - 1) (by omega)
          have harith : start + (i + 1) + (k - 1) = start + i + k := by omega
          rwa [harith] at this
    · intro b hb
      rw [findFirstHealthy] at hb
      by_cases hh : (bs.getD ((start + i) % bs.length) default).healthy
      · rw [if_pos hh] at hb
        refine ⟨0, Nat.succ_pos f, ?_, ?_, fun m hm => absurd hm (Nat.not_lt_zero m)⟩
        · cases hb; rfl
        · cases hb; exact hh
      · rw [if_neg hh] at hb
        obtain ⟨k, hkf, hbk, hbh, hprev⟩ := (ih (i + 1)).2 b hb
        refine ⟨k + 1, by omega, ?_, hbh, ?_⟩
        · have harith : start + (i + 1) + k = start + i + (k + 1) := by omega
          rwa [harith] at hbk
        · intro m hm
          rcases Nat.eq_zero_or_pos m with hm0 | hmpos
          · subst hm0
            simpa using Bool.of_not_eq_true hh
          · have := hprev (m - 1) (by omega)
            have harith : start + (i + 1) + (m - 1) = start + i + m := by omega
            rwa [harith] at this

/--
C7: on a non-empty pool, each `NextHealthy` call (i) advances the shared
cursor by exactly one and leaves the backend list untouched, (ii) returns
`some` backend (never `none`); the result is the first healthy backend in
the ≤ N-slot scan from the cursor position when one exists, and the backend
at the cursor position when none is healthy; and (iii) with every backend
healthy, the i-th of consecutive calls returns the backend at index
`(cursor + i) % N`, and over any N consecutive calls those indices are a
bijection of `Fin N` — each backend slot is returned exactly once.
(`none` is returned only by an empty pool.)
-/
theorem pool_next_healthy_round_robin (p : Pool) (hne : p.backends ≠ []) :
    (p.NextHealthy.2.currentIdx = p.currentIdx + 1 ∧
     p.NextHealthy.2.backends = p.backends) ∧
    ((∃ b, p.NextHealthy.1 = some b) ∧
     (∀ q : Pool, q.NextHealthy.1 = none → q.backends = [])) ∧
    ((∃ j, j < p.backends.length ∧
        (p.backends.getD ((p.currentIdx + j) % p.backends.length) default).healthy = true) →
      ∃ j, j < p.backends.length ∧
        p.NextHealthy.1 =
          some (p.backends.getD ((p.currentIdx + j) % p.backends.length) default) ∧
        (p.backends.getD ((p.currentIdx + j) % p.backends.length) default).healthy = true ∧
        ∀ m, m < j →
          (p.backends.getD ((p.currentIdx + m) % p.backends.length) default).healthy = false) ∧
    ((∀ j, j < p.backends.length →
        (p.backends.getD ((p.currentIdx + j) % p.backends.length) default).healthy = false) →
      p.NextHealthy.1 =
        some (p.backends.getD (p.currentIdx % p.backends.length) default)) ∧
    ((∀ b ∈ p.backends, b.healthy = true) →
      (∀ i, (p.nthState i).NextHealthy.1 =
        some (p.backends.getD ((p.currentIdx + i) % p.backends.length) default)) ∧
      ∀ hn : 0 < p.backends.length,
        Function.Bijective (fun i : Fin p.backends.length =>
          (⟨(p.currentIdx + i.1) % p.backends.length, Nat.mod_lt _ hn⟩ :
            Fin p.backends.length))) := by
  have hlen : 0 < p.backends.length := List.length_pos.mpr hne
  have hempty : p.backends.isEmpty = false := isEmpty_false_of_ne_nil _ hne
  refine ⟨?_, ⟨?_, ?_⟩, ?_, ?_, ?_⟩
  case _ =>
    unfold Pool.NextHealthy
    rw [if_neg (by rw [hempty]; exact Bool.false_ne_true)]
    cases hf : findFirstHealthy p.backends p.currentIdx 0 p.backends.length with
    | some b => exact ⟨rfl, rfl⟩
    | none => exact ⟨rfl, rfl⟩
  case _ =>
    unfold Pool.NextHealthy
    rw [if_neg (by rw [hempty]; exact Bool.false_ne_true)]
    cases hf : findFirstHealthy p.backends p.currentIdx 0 p.backends.length with
    | some b => exact ⟨b, rfl⟩
    | none => exact ⟨_, rfl⟩
  case _ =>
    intro q hq
    by_cases hqe : q.backends = []
    · exact hqe
    · exfalso
      have hqempty : q.backends.isEmpty = false := isEmpty_false_of_ne_nil _ hqe
      unfold Pool.NextHealthy at hq
      rw [if_neg (by rw [hqempty]; exact Bool.false_ne_true)] at hq
      cases hf : findFirstHealthy q.backends q.currentIdx 0 q.backends.length with
      | some b => rw [hf] at hq; cases hq
      | none => rw [hf] at hq; cases hq
  case _ =>
    intro ⟨j, hj, hjh⟩
    unfold Pool.NextHealthy
    rw [if_neg (by rw [hempty]; exact Bool.false_ne_true)]
    cases hf : findFirstHealthy p.backends p.currentIdx 0 p.backends.length with
    | some b =>
      obtain ⟨k, hk, hbk, hbh, hprev⟩ :=
        (findFirstHealthy_spec p.backends p.currentIdx p.backends.length 0).2 b hf
      simp only [Nat.add_zero] at hbk hprev
      refine ⟨k, hk, ?_, ?_, ?_⟩
      · exact congrArg some hbk
      · rw [← hbk]; exact hbh
      · intro m hm
        exact hprev m hm
    | none =>
      exfalso
      have := (findFirstHealthy_spec p.backends p.currentIdx p.backends.length 0).1 hf j hj
      simp only [Nat.add_zero] at this
      rw [this] at hjh
      exact Bool.noConfusion hjh
  case _ =>
    intro hnoheal
    unfold Pool.NextHealthy
    rw [if_neg (by rw [hempty]; exact Bool.false_ne_true)]
    cases hf : findFirstHealthy p.backends p.currentIdx 0 p.backends.length with
    | some b =>
      exfalso
      obtain ⟨k, hk, hbk, hbh, _⟩ :=
        (findFirstHealthy_spec p.backends p.currentIdx p.backends.length 0).2 b hf
      simp only [Nat.add_zero] at hbk
      have := hnoheal k hk
      rw [← hbk] at this
      rw [this] at hbh
      exact Bool.noConfusion hbh
    | none => rfl
  case _ =>
    intro hall
    have hone : ∀ q : Pool, q.backends = p.backends →
        q.NextHealthy.1 =
          some (p.backends.getD (q.currentIdx % p.backends.length) default) ∧
        q.NextHealthy.2.backends = p.backends ∧
        q.NextHealthy.2.currentIdx = q.currentIdx + 1 := by
      intro q hqb
      have hqhealthy :
          (p.backends.getD (q.currentIdx % p.backends.length) default).healthy = true := by
        have hmem : p.backends.getD (q.currentIdx % p.backends.length) default ∈
            p.backends :=
          getD_mem_of_lt _ _ (Nat.mod_lt _ hlen)
        exact hall _ hmem
      have hfind : findFirstHealthy q.backends q.currentIdx 0 q.backends.length =
          some (p.backends.getD (q.currentIdx % p.backends.length) default) := by
        rw [hqb]
        cases hfl : p.backends.length with
        | zero => omega
        | succ m =>
          rw [findFirstHealthy]
          simp only [hfl] at hqhealthy ⊢
          rw [Nat.add_zero, if_pos hqhealthy]
      unfold Pool.NextHealthy
      rw [hqb]
      rw [if_neg (by rw [hempty]; exact Bool.false_ne_true)]
      rw [show q.backends = p.backends from hqb] at hfind
      rw [hfind]
      exact ⟨rfl, rfl, rfl⟩
    have hstate : ∀ i, (p.nthState i).backends = p.backends ∧
        (p.nthState i).currentIdx = p.currentIdx + i := by
      intro i
      induction i with
      | zero => exact ⟨rfl, rfl⟩
      | succ n ihn =>
        have h := hone (p.nthState n) ihn.1
        unfold Pool.nthState
        exact ⟨h.2.1, by rw [h.2.2, ihn.2]; omega⟩
    refine ⟨fun i => ?_, fun hn => ?_⟩
    · have h := hone (p.nthState i) (hstate i).1
      rw [(hstate i).2] at h
      exact h.1
    · have hinj : Function.Injective (fun i : Fin p.backends.length =>
          (⟨(p.currentIdx + i.1) % p.backends.length, Nat.mod_lt _ hn⟩ :
            Fin p.backends.length)) := by
        intro i j hij
        have h1 : (p.currentIdx + i.1) % p.backends.length =
            (p.currentIdx + j.1) % p.backends.length := congrArg Fin.val hij
        have h2 : i.1 ≡ j.1 [MOD p.backends.length] :=
          Nat.ModEq.add_left_cancel' p.currentIdx h1
        have h3 : i.1 % p.backends.length = j.1 % p.backends.length := h2
        rw [Nat.mod_eq_of_lt i.2, Nat.mod_eq_of_lt j.2] at h3
        exact Fin.ext h3
      exact ⟨hinj, Finite.injective_iff_surjective.mp hinj⟩

/-- Witness for `pool_next_healthy_round_robin` on a concrete pool of three
healthy backends with the cursor at 2: calls return slots 2, 0, 1 — each
exactly once — and the cursor advances one per call. -/
theorem pool_next_healthy_round_robin_witness :
    (let p : Pool :=
      { backends := [{ Name := "b0", healthy := true },
                     { Name := "b1", healthy := true },
                     { Name := "b2", healthy := true }], currentIdx := 2 }
     p.backends ≠ [] ∧
     p.NextHealthy.2.currentIdx = 3 ∧
     (p.nthState 0).NextHealthy.1 = some { Name := "b2", healthy := true } ∧
     (p.nthState 1).NextHealthy.1 = some { Name := "b0", healthy := true } ∧
     (p.nthState 2).NextHealthy.1 = some { Name := "b1", healthy := true }) := by
  intro p
  have hne : p.backends ≠ [] := by decide
  have h := pool_next_healthy_round_robin p hne
  have hall : ∀ b ∈ p.backends, b.healthy = true := by decide
  have h5 := (h.2.2.2.2 hall).1
  refine ⟨hne, h.1.1, ?_, ?_, ?_⟩
  · rw [h5 0]; decide
  · rw [h5 1]; decide
  · rw [h5 2]; decide

/-! ## Admin API authentication (`admin` package: `New`, `requireAuth`) -/

/-- Go `strings.HasPrefix`. -/
def goHasPrefix (s pre : String) : Bool :=
  pre.data.isPrefixOf s.data

/-- Go `strings.TrimPrefix`. -/
def goTrimPrefix (s pre : String) : String :=
  if goHasPrefix s pre then String.mk (s.data.drop pre.data.length) else s

/-- Outcome of the admin `requireAuth` wrapper: reject with 403, reject
with 401, or fall through to the wrapped endpoint handler. -/
inductive AuthDecision where
  | forbidden
  | unauthorized
  | pass
deriving DecidableEq, Repr

/-- Go admin `extractIP`: `remoteHost` is the host part that
`net.SplitHostPort(r.RemoteAddr)` yields (or `RemoteAddr` itself when the
split fails); the result is `net.ParseIP` of it. -/
def extractIP (remoteHost : String) : Option Nat :=
  parseIPv4 remoteHost

/-- The allowlist check inside `requireAuth`: the peer parses as an IP and
some allowed network contains it. -/
def allowedByNets (allowedNets : List IPNet) (remoteHost : String) : Bool :=
  match extractIP remoteHost with
  | none => false
  | some ip => allowedNets.any (fun n => n.contains ip)

/-- The bearer-token half of `requireAuth` (part of the admin package):
checked only when a token is configured; the header must start with
`"Bearer "` and the rest must equal the configured token. -/
def checkBearerToken (authToken authHeader : String) : AuthDecision :=
  if authToken ≠ "" then
    if !(goHasPrefix authHeader "Bearer ") then .unauthorized
    else if goTrimPrefix authHeader "Bearer " ≠ authToken then .unauthorized
    else .pass
  else .pass

/--
Go `API.requireAuth`: the IP allowlist (when configured) is checked first
and rejects with 403; then the bearer token (when configured) rejects with
401; otherwise the wrapped handler runs.
-/
def API.requireAuth (allowedNets : List IPNet) (authToken : String)
    (remoteHost authHeader : String) : AuthDecision :=
  if 0 < allowedNets.length then
    if !(allowedByNets allowedNets remoteHost) then .forbidden
    else checkBearerToken authToken authHeader
  else
    checkBearerToken authToken authHeader

/-- The admin mux's registered endpoint patterns (admin `New`). -/
def adminEndpoints : List String :=
  ["/health", "/status", "/metrics", "/metrics/prometheus", "/backends",
   "/reload"]

/-- Observable routing outcome of an admin request. -/
inductive AdminRouteResult where
  | notFound
  | healthOK
  | forbidden
  | unauthorized
  | endpointReached (path : String)
deriving DecidableEq, Repr

/--
The admin mux as registered in Go `admin.New`: `/health` is bound directly
to `handleHealth` (no auth wrapper), every other registered endpoint is
wrapped in `requireAuth`; unknown paths fall to the mux's not-found
handler.
-/
def API.route (allowedNets : List IPNet) (authToken : String)
    (path remoteHost authHeader : String) : AdminRouteResult :=
  if path = "/health" then .healthOK
  else if path ∈ adminEndpoints then
    match API.requireAuth allowedNets authToken remoteHost authHeader with
    | .forbidden => .forbidden
    | .unauthorized => .unauthorized
    | .pass => .endpointReached path
  else .notFound

/-- Case analysis of `requireAuth`: 403 for a non-allowlisted peer
regardless of the token, 401 for a bad token once the IP check passes, and
`pass` exactly when both configured checks pass. -/
theorem requireAuth_spec (allowedNets : List IPNet) (authToken : String)
    (remoteHost authHeader : String) :
    (allowedNets ≠ [] → allowedByNets allowedNets remoteHost = false →
      API.requireAuth allowedNets authToken remoteHost authHeader =
        .forbidden) ∧
    ((allowedNets = [] ∨ allowedByNets allowedNets remoteHost = true) →
      authToken ≠ "" →
      (goHasPrefix authHeader "Bearer " = false ∨
        goTrimPrefix authHeader "Bearer " ≠ authToken) →
      API.requireAuth allowedNets authToken remoteHost authHeader =
        .unauthorized) ∧
    (API.requireAuth allowedNets authToken remoteHost authHeader = .pass →
      (allowedNets = [] ∨ allowedByNets allowedNets remoteHost = true) ∧
      (authToken = "" ∨ (goHasPrefix authHeader "Bearer " = true ∧
        goTrimPrefix authHeader "Bearer " = authToken))) := by
  refine ⟨?_, ?_, ?_⟩
  · intro hne hblocked
    have hlen : 0 < allowedNets.length := List.length_pos.mpr hne
    unfold API.requireAuth
    rw [if_pos hlen, hblocked]
    rfl
  · intro hip htok hbad
    have htokcheck : checkBearerToken authToken authHeader = .unauthorized := by
      unfold checkBearerToken
      rw [if_pos htok]
      rcases hbad with hpre | hmis
      · rw [hpre]
        rfl
      · by_cases hpre : goHasPrefix authHeader "Bearer "
        · rw [hpre]
          simp only [Bool.not_true, Bool.false_eq_true, if_false]
          rw [if_pos hmis]
        · rw [Bool.eq_false_iff.mpr hpre]
          rfl
    unfold API.requireAuth
    rcases hip with hnil | hallow
    · subst hnil
      simp only [List.length_nil, Nat.lt_irrefl, if_false]
      exact htokcheck
    · by_cases hlen : 0 < allowedNets.length
      · rw [if_pos hlen, hallow]
        exact htokcheck
      · rw [if_neg hlen]
        exact htokcheck
  · intro hpass
    unfold API.requireAuth at hpass
    have htok : checkBearerToken authToken authHeader = .pass →
        authToken = "" ∨ (goHasPrefix authHeader "Bearer " = true ∧
          goTrimPrefix authHeader "Bearer " = authToken) := by
      intro hp
      unfold checkBearerToken at hp
      by_cases ht : authToken ≠ ""
      · rw [if_pos ht] at hp
        by_cases hpre : goHasPrefix authHeader "Bearer "
        · rw [hpre] at hp
          simp only [Bool.not_true, Bool.false_eq_true, if_false] at hp
          by_cases hmis : goTrimPrefix authHeader "Bearer " ≠ authToken
          · rw [if_pos hmis] at hp
            exact absurd hp (by simp)
          · exact Or.inr ⟨hpre, by simpa using hmis⟩
        · rw [Bool.eq_false_iff.mpr hpre] at hp
          simp at hp
      · exact Or.inl (by simpa using ht)
    by_cases hlen : 0 < allowedNets.length
    · rw [if_pos hlen] at hpass
      by_cases hallow : allowedByNets allowedNets remoteHost
      · rw [hallow] at hpass
        simp only [Bool.not_true, Bool.false_eq_true, if_false] at hpass
        exact ⟨Or.inr hallow, htok hpass⟩
      · rw [Bool.eq_false_iff.mpr hallow] at hpass
        simp at hpass
    · rw [if_neg hlen] at hpass
      have : allowedNets = [] := by
        cases allowedNets with
        | nil => rfl
        | cons a t => exact absurd (Nat.succ_pos t.length) hlen
      exact ⟨Or.inl this, htok hpass⟩

/--
C8: `GET /health` is routed without any IP or token check; for every other
registered admin endpoint, with an allowlist configured a request whose
peer IP lies in no allowed CIDR is rejected 403 whatever its Authorization
header says, with a bearer token configured a request that passes the IP
check but carries a missing, non-Bearer, or mismatched Authorization header
is rejected 401, and the endpoint handler is reached only when both
configured checks pass.
-/
theorem admin_auth_gate (allowedNets : List IPNet) (authToken : String)
    (path remoteHost authHeader : String) :
    (API.route allowedNets authToken "/health" remoteHost authHeader =
      .healthOK) ∧
    (path ∈ adminEndpoints → path ≠ "/health" →
      ((allowedNets ≠ [] → allowedByNets allowedNets remoteHost = false →
         API.route allowedNets authToken path remoteHost authHeader =
           .forbidden) ∧
       ((allowedNets = [] ∨ allowedByNets allowedNets remoteHost = true) →
         authToken ≠ "" →
         (goHasPrefix authHeader "Bearer " = false ∨
           goTrimPrefix authHeader "Bearer " ≠ authToken) →
         API.route allowedNets authToken path remoteHost authHeader =
           .unauthorized) ∧
       (API.route allowedNets authToken path remoteHost authHeader =
           .endpointReached path →
         (allowedNets = [] ∨ allowedByNets allowedNets remoteHost = true) ∧
         (authToken = "" ∨ (goHasPrefix authHeader "Bearer " = true ∧
           goTrimPrefix authHeader "Bearer " = authToken))))) := by
  have hra := requireAuth_spec allowedNets authToken remoteHost authHeader
  constructor
  · unfold API.route
    rw [if_pos rfl]
  · intro hmem hneh
    have hroute : API.route allowedNets authToken path remoteHost authHeader =
        match API.requireAuth allowedNets authToken remoteHost authHeader with
        | .forbidden => .forbidden
        | .unauthorized => .unauthorized
        | .pass => .endpointReached path := by
      unfold API.route
      rw [if_neg hneh, if_pos hmem]
    refine ⟨?_, ?_, ?_⟩
    · intro hne hblocked
      rw [hroute, hra.1 hne hblocked]
    · intro hip htok hbad
      rw [hroute, hra.2.1 hip htok hbad]
    · intro hreach
      rw [hroute] at hreach
      cases hq : API.requireAuth allowedNets authToken remoteHost authHeader with
      | forbidden => rw [hq] at hreach; exact absurd hreach (by simp)
      | unauthorized => rw [hq] at hreach; exact absurd hreach (by simp)
      | pass => exact hra.2.2 hq

/-- Witness for `admin_auth_gate`, mirroring the repository's own
`TestCombinedAuth` table: allowlist `10.0.0.0/8`, token `secret-token`. -/
theorem admin_auth_gate_witness :
    (let nets : List IPNet := [{ addr := ipv4 10 0 0 0, prefixLen := 8 }]
     API.route nets "secret-token" "/health" "8.8.8.8" "" = .healthOK ∧
     API.route nets "secret-token" "/status" "172.16.0.1"
       "Bearer secret-token" = .forbidden ∧
     API.route nets "secret-token" "/status" "10.1.2.3" "Bearer wrong-token" =
       .unauthorized ∧
     API.route nets "secret-token" "/status" "10.1.2.3" "" = .unauthorized) := by
  intro nets
  refine ⟨(admin_auth_gate nets "secret-token" "/status" "8.8.8.8" "").1,
          ?_, ?_, ?_⟩
  · exact ((admin_auth_gate nets "secret-token" "/status" "172.16.0.1"
      "Bearer secret-token").2 (by decide) (by decide)).1 (by decide) (by decide)
  · exact (((admin_auth_gate nets "secret-token" "/status" "10.1.2.3"
      "Bearer wrong-token").2 (by decide) (by decide)).2.1 (Or.inr (by decide))
      (by decide) (Or.inr (by decide)))
  · exact (((admin_auth_gate nets "secret-token" "/status" "10.1.2.3"
      "").2 (by decide) (by decide)).2.1 (Or.inr (by decide))
      (by decide) (Or.inl (by decide)))

/-! ## Decoy strategies (`buildDecoyStrategy`, `config.DecoyConfig.Validate`) -/

/-- Go `config.DecoyConfig`. -/
structure DecoyConfig where
  Mode : String
  StatusCode : Nat
  Body : String
  BodyFile : String
  RedirectTo : String
deriving DecidableEq, Repr

/--
Modelled from the spec: the `decoy` package's strategy values (its source
is outside `src/`).  §4.8: a static strategy carries a status code and a
body, a redirect strategy carries `302` and a location.
-/
inductive Strategy where
  | staticDecoy (statusCode : Nat) (body : String) (contentType : String)
  | redirectDecoy (statusCode : Nat) (location : String)
deriving DecidableEq, Repr

/-- What a decoy strategy writes for a denied request. -/
structure DecoyResponse where
  status : Nat
  body : String
  location : String := ""
deriving DecidableEq, Repr

/--
Modelled from the spec: `decoy.Strategy.Serve` (source outside `src/`).
§4.8: "Static: writes `status_code` (default 200) and a body";
"Redirect: writes `302` with `Location` from the configured URL."
-/
def Strategy.serve : Strategy → DecoyResponse
  | .staticDecoy s b _ => { status := if s = 0 then 200 else s, body := b }
  | .redirectDecoy s loc => { status := s, body := "", location := loc }

/--
Modelled from the spec: `decoy.NewStaticDecoyFromFile` (source outside
`src/`) loads the body from a file at startup, failing when the file is
unreadable; `fileLoad` stands for that read.
-/
def NewStaticDecoyFromFile (fileLoad : String → Option String)
    (statusCode : Nat) (path contentType : String) : Option Strategy :=
  (fileLoad path).map (fun contents =>
    Strategy.staticDecoy statusCode contents contentType)

/--
Go `buildDecoyStrategy` (handler.go 228–251): a case-sensitive switch on
`cfg.Mode`; `"static"` prefers the body file when set and readable, then
the inline body with a zero status defaulted to 200; `"redirect"` builds a
302 redirect; every other mode falls to the default arm
`decoy.NewStaticDecoy(http.StatusOK, "", "")`.
-/
def buildDecoyStrategy (fileLoad : String → Option String)
    (cfg : DecoyConfig) : Strategy :=
  if cfg.Mode = "static" then
    match (if cfg.BodyFile ≠ "" then
            NewStaticDecoyFromFile fileLoad cfg.StatusCode cfg.BodyFile ""
           else none) with
    | some d => d
    | none =>
      Strategy.staticDecoy (if cfg.StatusCode = 0 then 200 else cfg.StatusCode)
        cfg.Body ""
  else if cfg.Mode = "redirect" then
    Strategy.redirectDecoy 302 cfg.RedirectTo
  else
    -- Default: simple 200 OK
    Strategy.staticDecoy 200 "" ""

/-- ASCII `strings.ToLower`. -/
def asciiToLower (c : Char) : Char :=
  if 'A' ≤ c ∧ c ≤ 'Z' then Char.ofNat (c.toNat + 32) else c

/-- Go `strings.ToLower` on the ASCII fragment. -/
def goToLower (s : String) : String :=
  String.mk (s.data.map asciiToLower)

/--
Go `DecoyConfig.Validate` (config package): empty mode is accepted (decoy
optional), the lower-cased mode must be `static`, `redirect` or `proxy`,
and `redirect` requires `redirect_to`.  `none` means valid, `some` carries
the error message.
-/
def DecoyConfig.Validate (d : DecoyConfig) : Option String :=
  if d.Mode = "" then none
  else if !(goToLower d.Mode = "static" || goToLower d.Mode = "redirect" ||
            goToLower d.Mode = "proxy") then
    some ("invalid decoy mode: " ++ d.Mode)
  else if d.Mode = "redirect" && d.RedirectTo = "" then
    some "redirect_to is required for redirect mode"
  else none

/--
C10: every `DecoyConfig` whose mode is neither `"static"` nor `"redirect"`
— the empty mode and `"proxy"`, both accepted by `Validate`, included —
gets the default decoy `NewStaticDecoy(200, "", "")`, which answers every
denied request with status 200 and an empty body.
-/
theorem decoy_default_strategy (fileLoad : String → Option String)
    (cfg : DecoyConfig) (h1 : cfg.Mode ≠ "static") (h2 : cfg.Mode ≠ "redirect") :
    buildDecoyStrategy fileLoad cfg = Strategy.staticDecoy 200 "" "" ∧
    (buildDecoyStrategy fileLoad cfg).serve =
      { status := 200, body := "", location := "" } ∧
    DecoyConfig.Validate
      { Mode := "", StatusCode := 0, Body := "", BodyFile := "",
        RedirectTo := "" } = none ∧
    DecoyConfig.Validate
      { Mode := "proxy", StatusCode := 0, Body := "", BodyFile := "",
        RedirectTo := "" } = none := by
  have hbuild : buildDecoyStrategy fileLoad cfg = Strategy.staticDecoy 200 "" "" := by
    unfold buildDecoyStrategy
    rw [if_neg h1, if_neg h2]
  refine ⟨hbuild, ?_, by decide, by decide⟩
  rw [hbuild]
  rfl

/-- Witness for `decoy_default_strategy` at mode `"proxy"` (validated as
legal configuration) with a file loader that would succeed. -/
theorem decoy_default_strategy_witness :
    (let cfg : DecoyConfig :=
      { Mode := "proxy", StatusCode := 404, Body := "nope",
        BodyFile := "f.html", RedirectTo := "" }
     buildDecoyStrategy (fun _ => some "file body") cfg =
       Strategy.staticDecoy 200 "" "" ∧
     (buildDecoyStrategy (fun _ => some "file body") cfg).serve =
       { status := 200, body := "", location := "" } ∧
     DecoyConfig.Validate cfg = none) := by
  intro cfg
  have h := decoy_default_strategy (fun _ => some "file body") cfg
    (by decide) (by decide)
  exact ⟨h.1, h.2.1, by decide⟩

/-! ## Retry with failover (`internal/proxy/health.go` 267–362, backend.go)

The HTTP response writer chain is modelled explicitly: a dispatched backend
performs a sequence of writer operations (`WriteHeader` / `Write`); the
pool's `retryResponseRecorder` and the backend's `responseWrapper` fold
over them, and the `wire` list accumulates everything actually forwarded to
the client connection.
-/

/-- One operation a handler performs on its `http.ResponseWriter`: a
`WriteHeader(code)` call or a `Write` of `n` body bytes. -/
inductive WOp where
  | writeHeader (code : Nat)
  | write (n : Nat)
deriving DecidableEq, Repr

/-- Go `retryResponseRecorder` (health.go 342–346): first status written
and whether the response has committed to the wire. -/
structure Recorder where
  statusCode : Nat
  headerWritten : Bool
deriving DecidableEq, Repr

/-- Go `retryResponseRecorder.WriteHeader` (health.go 348–354): records the
first status, marks the header written and forwards it; later calls are
swallowed. -/
def Recorder.writeHeaderOp (r : Recorder) (wire : List WOp) (code : Nat) :
    Recorder × List WOp :=
  if r.headerWritten then (r, wire)
  else ({ statusCode := code, headerWritten := true },
        wire ++ [WOp.writeHeader code])

/-- Go `retryResponseRecorder.Write` (health.go 356–362): an implicit 200
on the first body write; the bytes are always forwarded. -/
def Recorder.writeOp (r : Recorder) (wire : List WOp) (n : Nat) :
    Recorder × List WOp :=
  (if r.headerWritten then r
   else { statusCode := 200, headerWritten := true },
   wire ++ [WOp.write n])

/-- Go `responseWrapper` (backend.go 143–147): the backend's own status
capture, initialised to 200. -/
structure Wrapper where
  statusCode : Nat
  written : Bool
deriving DecidableEq, Repr

/-- One writer operation through the `responseWrapper` (backend.go
149–162) into the recorder beneath it: the wrapper captures the first
status but always forwards. -/
def wrapperStep (w : Wrapper) (rec : Recorder) (wire : List WOp) :
    WOp → Wrapper × Recorder × List WOp
  | .writeHeader code =>
    let w2 := if w.written then w
              else { statusCode := code, written := true }
    let rw := rec.writeHeaderOp wire code
    (w2, rw.1, rw.2)
  | .write n =>
    let w2 := if w.written then w else { w with written := true }
    let rw := rec.writeOp wire n
    (w2, rw.1, rw.2)

/-- Fold a dispatched handler's writer operations through wrapper and
recorder. -/
def runWrapper (w : Wrapper) (rec : Recorder) (wire : List WOp) :
    List WOp → Wrapper × Recorder × List WOp
  | [] => (w, rec, wire)
  | op :: rest =>
    match wrapperStep w rec wire op with
    | (w2, rec2, wire2) => runWrapper w2 rec2 wire2 rest

/-- A backend as `ServeHTTPWithRetry` sees it: name, health bit, circuit
breaker, and the writer operations its reverse proxy performs for the
request in hand (`[writeHeader 502]` models an upstream transport failure
via the proxy's `ErrorHandler`). -/
structure RBackend where
  Name : String
  healthy : Bool
  cb : CircuitBreaker
  upstream : List WOp
deriving DecidableEq, Repr

instance : Inhabited RBackend :=
  ⟨{ Name := "", healthy := true,
     cb := NewCircuitBreaker DefaultCircuitBreakerConfig 0, upstream := [] }⟩

/--
Go `Backend.ServeHTTP` (backend.go 123–140): consult the circuit breaker
(503 straight to the writer on rejection), otherwise run the reverse proxy
through a `responseWrapper` and record success/failure on the breaker from
the wrapper's status (`≥ 500` or `502` counts as failure).
-/
def RBackend.ServeHTTP (b : RBackend) (now : Int) (rec : Recorder)
    (wire : List WOp) : RBackend × Recorder × List WOp :=
  match b.cb.Allow now with
  | (false, cb1) =>
    match rec.writeHeaderOp wire 503 with
    | (rec2, wire2) => ({ b with cb := cb1 }, rec2, wire2)
  | (true, cb1) =>
    match runWrapper { statusCode := 200, written := false } rec wire
        b.upstream with
    | (w2, rec2, wire2) =>
      let cb2 := if w2.statusCode ≥ 500 || w2.statusCode = 502 then
                   cb1.RecordFailure now
                 else cb1.RecordSuccess now
      ({ b with cb := cb2 }, rec2, wire2)

/-- The first selection loop of `ServeHTTPWithRetry` (health.go 290–298):
scan for an untried, healthy backend whose breaker admits the request.
Short-circuit evaluation is preserved: `Allow` (and its state effect) runs
only on untried healthy candidates. -/
def selectHealthyAllowed (tried : List String) (base : Nat) (now : Int) :
    List RBackend → Nat → Nat → Option Nat × List RBackend
  | backends, _, 0 => (none, backends)
  | backends, i, fuel + 1 =>
    let idx := (base + i) % backends.length
    let b := backends.getD idx default
    if !(tried.contains b.Name) && b.healthy then
      match b.cb.Allow now with
      | (allowed, cb2) =>
        let backends2 := backends.set idx { b with cb := cb2 }
        if allowed then (some idx, backends2)
        else selectHealthyAllowed tried base now backends2 (i + 1) fuel
    else
      selectHealthyAllowed tried base now backends (i + 1) fuel

/-- The second selection loop (health.go 301–310): any untried backend. -/
def selectUntried (backends : List RBackend) (tried : List String)
    (base : Nat) : Nat → Nat → Option Nat
  | _, 0 => none
  | i, fuel + 1 =>
    let idx := (base + i) % backends.length
    if !(tried.contains (backends.getD idx default).Name) then some idx
    else selectUntried backends tried base (i + 1) fuel

/-- The attempt loop of `ServeHTTPWithRetry` (health.go 288–336), with the
remaining attempt budget as fuel.  Returns the name of the backend that
handled the response (`none` if every backend was tried fruitlessly), the
set of dispatched backends, everything written to the client connection,
and the final backend states. -/
def serveRetryLoop (start maxRetries : Nat) (now : Int) :
    List RBackend → List String → List WOp → Nat → Nat →
      Option String × List String × List WOp × List RBackend
  | backends, tried, wire, _, 0 => (none, tried, wire, backends)
  | backends, tried, wire, attempt, fuel + 1 =>
    match selectHealthyAllowed tried (start + attempt) now backends 0
        backends.length with
    | (sel, backends1) =>
      match (match sel with
             | some idx => some idx
             | none => selectUntried backends1 tried (start + attempt) 0
                 backends1.length) with
      | none => (none, tried, wire, backends1)   -- all backends tried
      | some idx =>
        let b := backends1.getD idx default
        let tried2 := b.Name :: tried
        match b.ServeHTTP now { statusCode := 0, headerWritten := false }
            wire with
        | (b2, rec2, wire2) =>
          let backends2 := backends1.set idx b2
          if rec2.statusCode > 0 && rec2.statusCode < 500 &&
             rec2.statusCode ≠ 502 && rec2.statusCode ≠ 503 then
            (some b.Name, tried2, wire2, backends2)
          else if attempt = maxRetries - 1 || rec2.headerWritten then
            (some b.Name, tried2, wire2, backends2)
          else
            serveRetryLoop start maxRetries now backends2 tried2 wire2
              (attempt + 1) fuel

/--
Go `Pool.ServeHTTPWithRetry` (health.go 269–339): clamp `maxRetries` to
`[1, len]`, then run the attempt loop from the pre-increment cursor value
(the cursor advance itself is modelled in `Pool.NextHealthy`).
-/
def Pool.ServeHTTPWithRetry (backends : List RBackend) (currentIdx : Nat)
    (maxRetries : Nat) (now : Int) :
    Option String × List String × List WOp × List RBackend :=
  if backends.isEmpty then (none, [], [], backends)
  else
    let mr0 := if maxRetries = 0 then 1 else maxRetries
    let mr := if mr0 > backends.length then backends.length else mr0
    serveRetryLoop currentIdx mr now backends [] [] 0 mr

/--
C6 (code bug): with two healthy, circuit-closed backends — `b1` whose
upstream dispatch writes a `502` status, `b2` which would answer `200 "ok"`
— and retry budget 2, `ServeHTTPWithRetry` stops after `b1`: the recorder
holds status 502 and the 502 header is already on the wire (`headerWritten`
is set by the very `WriteHeader` call that records the status, so a
recorded 5xx with nothing flushed — the spec's retry trigger — can never
occur), `b1` is returned as the handling backend, and the untried healthy
candidate `b2` is never dispatched.
-/
theorem serve_with_retry_no_failover_after_5xx :
    (let cb0 := NewCircuitBreaker DefaultCircuitBreakerConfig 0
     let b1 : RBackend :=
       { Name := "b1", healthy := true, cb := cb0,
         upstream := [WOp.writeHeader 502] }
     let b2 : RBackend :=
       { Name := "b2", healthy := true, cb := cb0,
         upstream := [WOp.writeHeader 200, WOp.write 2] }
     let r := Pool.ServeHTTPWithRetry [b1, b2] 0 2 0
     r.1 = some "b1" ∧
     r.2.1 = ["b1"] ∧
     r.2.2.1 = [WOp.writeHeader 502] ∧
     ¬("b2" ∈ r.2.1)) := by
  decide

end ShadowGate
